import Mathlib

/-
Verification of the webrtc-teste signaling relay (Go).

The repository contains two variants of the same server: src/main.go
(unbuffered channels, blocking sends, no duplicate eviction) and
src/unnamed/part_000 (buffered Send channel of capacity 256, select/default
non-blocking enqueue, duplicate-name eviction, user-list / new-user /
leave notifications). The detailed behaviours in the specification come
from the part_000 variant, so the definitions below embed that file; the
doc comments cite its line numbers.

Messages are modelled abstractly: the server-generated JSON payloads are
the userList / newUser / leave constructors, and opaque client payloads
that are forwarded verbatim are the raw constructor.
-/

namespace SigRelay

/-- Wire message, abstracting the serialized JSON bytes placed on a Send
channel. raw stands for opaque client bytes forwarded verbatim. -/
inductive Msg where
  | userList (users : List String)
  | newUser (n : String)
  | leave (n : String)
  | raw (payload : String)
deriving DecidableEq

/-- The per-client outbound channel: make(chan []byte, 256) in part_000
line 110. msgs is the buffered content in FIFO order, cap the capacity. -/
structure Queue where
  msgs : List Msg
  cap : Nat
deriving DecidableEq

/-- Non-blocking enqueue: the select with a default branch used at
part_000 lines 70-75 and 232-237. Succeeds only when the buffer has room,
otherwise the message is dropped and the queue is unchanged. -/
def Queue.trySend (q : Queue) (m : Msg) : Queue :=
  if q.msgs.length < q.cap then ⟨q.msgs ++ [m], q.cap⟩ else q

/-- Blocking enqueue (plain channel send, part_000 line 172). Returns none
when the buffer is full, in which case the sending task blocks forever in
a single-task model. -/
def Queue.send (q : Queue) (m : Msg) : Option Queue :=
  if q.msgs.length < q.cap then some ⟨q.msgs ++ [m], q.cap⟩ else none

/-- Client record (part_000 lines 13-18): a name, the outbound Send queue
and a flag recording whether its socket has been closed. -/
structure Client where
  name : String
  queue : Queue
  sockClosed : Bool
deriving DecidableEq

/-- Non-blocking enqueue onto one client, as a client transformer. -/
def Client.trySendMsg (c : Client) (m : Msg) : Client :=
  ⟨c.name, c.queue.trySend m, c.sockClosed⟩

/-- Room record (part_000 lines 21-25): the member map Clients, modelled
as a list of clients keyed by their name field. -/
structure Room where
  name : String
  clients : List Client
deriving DecidableEq

/-- Go map read room.Clients[n]: first client whose name is n. -/
def Room.lookup (r : Room) (n : String) : Option Client :=
  r.clients.find? (fun c => c.name == n)

/-- Room.Broadcast (part_000 lines 63-78): for every member whose name
differs from the excluded name, try a non-blocking enqueue of the message;
a full buffer drops the message for that member only. -/
def Room.broadcast (r : Room) (m : Msg) (e : String) : Room :=
  ⟨r.name, r.clients.map (fun c => if c.name != e then c.trySendMsg m else c)⟩

/-- Go map delete(room.Clients, n). -/
def Room.eraseClient (r : Room) (n : String) : Room :=
  ⟨r.name, r.clients.filter (fun c => c.name != n)⟩

/-- Admission step of handleWebSocket (part_000 lines 144-152): under the
room lock, if a client with the same name exists its socket is closed and
its entry deleted, then the new client is inserted. The second component
reports the evicted client with its socket marked closed. -/
def Room.insertClient (r : Room) (c : Client) : Room × Option Client :=
  match r.clients.find? (fun x => x.name == c.name) with
  | some ex => (⟨r.name, (r.eraseClient c.name).clients ++ [c]⟩, some ⟨ex.name, ex.queue, true⟩)
  | none => (⟨r.name, r.clients ++ [c]⟩, none)

/-- Mutation of the one client object named n inside the member map (a
channel send on that client is visible through the map, Go pointers). -/
def Room.updateClient (r : Room) (n : String) (g : Client → Client) : Room :=
  ⟨r.name, r.clients.map (fun c => if c.name == n then g c else c)⟩

/-- The user-list snapshot (part_000 lines 159-165): names of all members
other than the given one. -/
def Room.otherNames (r : Room) (n : String) : List String :=
  (r.clients.filter (fun c => c.name != n)).map (fun c => c.name)

/-- Capacity of a fresh Send channel (part_000 line 110). -/
def clientSendCap : Nat := 256

/-- The client object built at part_000 lines 107-111 and named at 138. -/
def mkClient (n : String) : Client := ⟨n, ⟨[], clientSendCap⟩, false⟩

/-- Successful join path of handleWebSocket (part_000 lines 138-182):
insert the client (evicting a same-name member), snapshot the other
member names, send the user-list onto the own fresh Send channel
(blocking send, line 172), then broadcast new-user excluding the joiner.
Returns none only if the blocking send would block. -/
def handleJoin (r : Room) (n : String) : Option Room :=
  match (mkClient n).queue.send
      (Msg.userList ((r.insertClient (mkClient n)).fst.otherNames n)) with
  | none => none
  | some q =>
      some (((r.insertClient (mkClient n)).fst.updateClient n
        (fun cl => ⟨cl.name, q, cl.sockClosed⟩)).broadcast (Msg.newUser n) n)

/-- Steady-state switch of readMessages (part_000 lines 218-248) for one
parsed inbound message: typ and target are the string-asserted type and
target fields (empty when absent), m the original raw bytes. Returns the
updated room and whether the read loop continues (false for leave). The
sender name is carried but, as in the source switch, never consulted. -/
def dispatch (r : Room) (_sender typ target : String) (m : Msg) : Room × Bool :=
  if typ == "offer" || typ == "answer" || typ == "candidate" then
    if target == "" then (r, true)
    else
      match r.lookup target with
      | some _ => (r.updateClient target (fun c => c.trySendMsg m), true)
      | none => (r, true)
  else if typ == "leave" then (r, false)
  else (r, true)

/-- One inbound frame of the join loop (part_000 lines 117-137): either
JSON that fails to unmarshal, or the string-asserted type, name and room
fields (empty string when absent or not a string). -/
inductive Frame where
  | malformed
  | parsed (typ n rm : String)
deriving DecidableEq

/-- Outcome of the join loop for one connection. -/
inductive JoinResult where
  | joined (n rm : String)
  | closedUnjoined
deriving DecidableEq

/-- The join loop of handleWebSocket (part_000 lines 117-191) over the
frames the connection produces before its read fails; the end of the list
is the read error, on which the socket is closed without admission. -/
def joinOutcome : List Frame → JoinResult
  | [] => JoinResult.closedUnjoined
  | Frame.malformed :: rest => joinOutcome rest
  | Frame.parsed t n rm :: rest =>
      if t == "join" then
        if n == "" || rm == "" then joinOutcome rest else JoinResult.joined n rm
      else joinOutcome rest

/-- The registry (part_000 lines 28-31): rooms keyed by name. -/
structure ServerState where
  rooms : List (String × Room)
deriving DecidableEq

/-- Server.GetOrCreateRoom (part_000 lines 45-60): under the server lock,
return the registered room for the name, else insert and return a fresh
room with an empty member map. -/
def getOrCreateRoom (s : ServerState) (n : String) : ServerState × Room :=
  match s.rooms.lookup n with
  | some room => (s, room)
  | none => (⟨s.rooms ++ [(n, ⟨n, []⟩)]⟩, ⟨n, []⟩)

/-- Atomic steps of the code paths guarded by one room mutex, used to
check the locking discipline. broadcastAll is the loop body of Broadcast
(its lock and unlock appear as separate acts). -/
inductive Act where
  | lock
  | unlock
  | removeEntry (n : String)
  | broadcastAll (m : Msg) (e : String)
  | closeConn
  | closeQueue
deriving DecidableEq

/-- Execution state of the single task running a trace against one room
and its non-reentrant mutex: blocked is set when the task tries to
acquire the lock it already holds, after which nothing further runs. -/
structure Exec where
  room : Room
  lockHeld : Bool
  blocked : Bool
  connClosed : Bool
  queueClosed : Bool
deriving DecidableEq

/-- Run a trace of acts. A lock act while the lock is held blocks the
task forever: the remaining acts never execute (sync.Mutex in Go is not
reentrant and no other task releases a mutex it does not hold). -/
def runActs : Exec → List Act → Exec
  | s, [] => s
  | s, Act.lock :: rest =>
      if s.lockHeld then { s with blocked := true }
      else runActs { s with lockHeld := true } rest
  | s, Act.unlock :: rest => runActs { s with lockHeld := false } rest
  | s, Act.removeEntry n :: rest => runActs { s with room := s.room.eraseClient n } rest
  | s, Act.broadcastAll m e :: rest => runActs { s with room := s.room.broadcast m e } rest
  | s, Act.closeConn :: rest => runActs { s with connClosed := true } rest
  | s, Act.closeQueue :: rest => runActs { s with queueClosed := true } rest

/-- Lock trace of Room.Broadcast (part_000 lines 63-78): Lock, the
delivery loop, deferred Unlock. -/
def broadcastActs (m : Msg) (e : String) : List Act :=
  [Act.lock, Act.broadcastAll m e, Act.unlock]

/-- Lock trace of Room.RemoveClient (part_000 lines 81-94): Lock, delete
the entry, then the call r.Broadcast(leaveJSON, "") with its own Lock and
Unlock, then the deferred Unlock of RemoveClient itself. -/
def removeClientActs (n : String) : List Act :=
  Act.lock :: Act.removeEntry n :: (broadcastActs (Msg.leave n) "" ++ [Act.unlock])

/-- Trace of the readMessages cleanup (part_000 lines 196-201):
c.Room.RemoveClient(c.Name), then c.Socket.Close(), then close(c.Send). -/
def cleanupActs (n : String) : List Act :=
  removeClientActs n ++ [Act.closeConn, Act.closeQueue]

/-- Sample member with an empty queue. -/
def clientA : Client := ⟨"A", ⟨[], clientSendCap⟩, false⟩

/-- Second sample member with an empty queue. -/
def clientB : Client := ⟨"B", ⟨[], clientSendCap⟩, false⟩

/-- Sample member whose queue is full (one slot, one buffered message). -/
def clientFullB : Client := ⟨"B", ⟨[Msg.raw "x"], 1⟩, false⟩

/-- Sample room holding clientA and clientB. -/
def roomAB : Room := ⟨"lobby", [clientA, clientB]⟩

/-- Sample room holding clientA and the full-queue clientFullB. -/
def roomAFullB : Room := ⟨"lobby", [clientA, clientFullB]⟩

/-- Initial execution state over roomAB: lock free, nothing closed. -/
def execAB : Exec := ⟨roomAB, false, false, false, false⟩

/-- Sample inbound frames: unparsable JSON, a join with an empty name,
then a valid join. -/
def demoFrames : List Frame :=
  [Frame.malformed, Frame.parsed "join" "" "lobby", Frame.parsed "join" "A" "lobby"]

/-- Looking a key up past a prefix that does not contain it. -/
theorem lookup_append_of_none {β : Type} (n : String) (l₁ l₂ : List (String × β))
    (h : l₁.lookup n = none) : (l₁ ++ l₂).lookup n = l₂.lookup n := by
  induction l₁ with
  | nil => rfl
  | cons p t ih =>
    rcases p with ⟨k, v⟩
    cases hnk : n == k with
    | true => simp [List.lookup, hnk] at h
    | false =>
      simp only [List.lookup, hnk] at h
      rw [List.cons_append]
      simp only [List.lookup, hnk]
      exact ih h

/-- A key whose lookup fails is not among the stored keys. -/
theorem lookup_none_not_mem {β : Type} (n : String) (l : List (String × β))
    (h : l.lookup n = none) : n ∉ l.map Prod.fst := by
  induction l with
  | nil => simp
  | cons p t ih =>
    rcases p with ⟨k, v⟩
    cases hnk : n == k with
    | true => simp [List.lookup, hnk] at h
    | false =>
      have hne : n ≠ k := by simpa using hnk
      simp only [List.lookup, hnk] at h
      simp [hne, ih h]

/-- Claim C9: GetOrCreateRoom always succeeds and returns the registered
room for the name when one exists (leaving the registry unchanged),
otherwise inserts and returns a fresh room with an empty member map;
afterwards the name maps to the returned room, and key uniqueness of the
registry is preserved. -/
theorem getOrCreateRoom_correct (s : ServerState) (n : String) :
    (∀ r0, s.rooms.lookup n = some r0 → getOrCreateRoom s n = (s, r0)) ∧
    (s.rooms.lookup n = none →
      getOrCreateRoom s n = (⟨s.rooms ++ [(n, ⟨n, []⟩)]⟩, ⟨n, []⟩)) ∧
    (getOrCreateRoom s n).fst.rooms.lookup n = some (getOrCreateRoom s n).snd ∧
    ((s.rooms.map Prod.fst).Nodup → ((getOrCreateRoom s n).fst.rooms.map Prod.fst).Nodup) := by
  cases h : s.rooms.lookup n with
  | some r0 =>
    refine ⟨?_, ?_, ?_, ?_⟩
    · intro r1 h1
      obtain rfl : r0 = r1 := Option.some.inj h1
      simp [getOrCreateRoom, h]
    · intro h1
      exact absurd h1 (by simp)
    · simp [getOrCreateRoom, h]
    · intro hd
      simpa [getOrCreateRoom, h] using hd
  | none =>
    refine ⟨?_, ?_, ?_, ?_⟩
    · intro r1 h1
      exact absurd h1 (by simp)
    · intro _
      simp [getOrCreateRoom, h]
    · simp only [getOrCreateRoom, h]
      rw [lookup_append_of_none n s.rooms _ h]
      simp [List.lookup]
    · intro hd
      simp only [getOrCreateRoom, h, List.map_append]
      refine List.Nodup.append hd (by simp) ?_
      intro a ha hb
      have hb2 : a = n := by simpa using hb
      rw [hb2] at ha
      exact lookup_none_not_mem n s.rooms h ha

/-- Claim C9 witness: on the empty registry, GetOrCreateRoom inserts and
returns a fresh empty room named lobby. -/
theorem getOrCreateRoom_correct_witness :
    (ServerState.mk []).rooms.lookup "lobby" = none ∧
    getOrCreateRoom ⟨[]⟩ "lobby" = (⟨[("lobby", ⟨"lobby", []⟩)]⟩, ⟨"lobby", []⟩) :=
  ⟨rfl, (getOrCreateRoom_correct ⟨[]⟩ "lobby").2.1 rfl⟩

/-- Every member surviving the erase of a name has a different name. -/
theorem mem_erase_ne (l : List Client) (n : String) :
    ∀ x ∈ l.filter (fun c => c.name != n), x.name ≠ n := by
  intro x hx
  have hp := List.of_mem_filter hx
  simpa using hp

/-- After erasing a name, no entry with that name can be found. -/
theorem find_none_after_erase (l : List Client) (n : String) :
    (l.filter (fun x => x.name != n)).find? (fun x => x.name == n) = none := by
  rw [List.find?_eq_none]
  intro x hx
  simpa using mem_erase_ne l n x hx

/-- After erasing a name, filtering for that name yields nothing. -/
theorem filter_eq_after_erase (l : List Client) (n : String) :
    (l.filter (fun x => x.name != n)).filter (fun x => x.name == n) = [] := by
  rw [List.filter_eq_nil_iff]
  intro x hx
  simpa using mem_erase_ne l n x hx

/-- Claim C2: admitting a client whose name already names a member of the
room closes the socket of the existing member and evicts its entry before
the new client is inserted; immediately afterwards exactly one entry with
that name exists in the member map and it is the new client. -/
theorem insert_evicts_duplicate (r : Room) (c ex : Client)
    (h : r.clients.find? (fun x => x.name == c.name) = some ex) :
    (r.insertClient c).snd = some ⟨ex.name, ex.queue, true⟩ ∧
    ((r.insertClient c).fst.clients.filter (fun x => x.name == c.name)).length = 1 ∧
    (r.insertClient c).fst.lookup c.name = some c := by
  refine ⟨?_, ?_, ?_⟩
  · simp [Room.insertClient, h]
  · simp only [Room.insertClient, h, Room.eraseClient]
    rw [List.filter_append, filter_eq_after_erase]
    simp
  · simp only [Room.insertClient, h, Room.lookup, Room.eraseClient]
    rw [List.find?_append, find_none_after_erase]
    simp [List.find?_cons]

/-- Claim C2 witness: re-admitting the name B into roomAB reports the old
clientB with its socket closed, leaves exactly one entry named B, and
that entry is the new client. -/
theorem insert_evicts_duplicate_witness :
    roomAB.clients.find? (fun x => x.name == clientB.name) = some clientB ∧
    ((roomAB.insertClient clientB).snd = some ⟨clientB.name, clientB.queue, true⟩ ∧
      ((roomAB.insertClient clientB).fst.clients.filter
        (fun x => x.name == clientB.name)).length = 1 ∧
      (roomAB.insertClient clientB).fst.lookup clientB.name = some clientB) :=
  ⟨by decide, insert_evicts_duplicate roomAB clientB clientB (by decide)⟩

/-- Claim C3: broadcast delivery is non-blocking and per-member
independent: the room maps each member through one transformer, the
excluded member is left alone, a non-excluded member with a full queue
keeps its queue unchanged (the message is dropped for it alone), and
every non-excluded member with a non-full queue gets the message appended
to its queue. -/
theorem broadcast_drop_on_full (r : Room) (m : Msg) (e : String) (c : Client)
    (hc : c ∈ r.clients) :
    (if c.name != e then c.trySendMsg m else c) ∈ (r.broadcast m e).clients ∧
    (¬ c.queue.msgs.length < c.queue.cap → c.trySendMsg m = c) ∧
    (c.queue.msgs.length < c.queue.cap →
      (c.trySendMsg m).queue.msgs = c.queue.msgs ++ [m] ∧ (c.trySendMsg m).name = c.name) := by
  refine ⟨?_, ?_, ?_⟩
  · exact List.mem_map_of_mem _ hc
  · intro hfull
    simp [Client.trySendMsg, Queue.trySend, hfull]
  · intro hroom
    simp [Client.trySendMsg, Queue.trySend, hroom]

/-- Claim C3 witness: broadcasting into the room where the queue of B is
full drops the message for B alone while A receives it. -/
theorem broadcast_drop_on_full_witness :
    clientFullB ∈ roomAFullB.clients ∧
    ((if clientFullB.name != "" then clientFullB.trySendMsg (Msg.raw "z") else clientFullB)
        ∈ (roomAFullB.broadcast (Msg.raw "z") "").clients ∧
      (¬ clientFullB.queue.msgs.length < clientFullB.queue.cap →
        clientFullB.trySendMsg (Msg.raw "z") = clientFullB) ∧
      (clientFullB.queue.msgs.length < clientFullB.queue.cap →
        (clientFullB.trySendMsg (Msg.raw "z")).queue.msgs
            = clientFullB.queue.msgs ++ [Msg.raw "z"] ∧
          (clientFullB.trySendMsg (Msg.raw "z")).name = clientFullB.name)) :=
  ⟨by decide, broadcast_drop_on_full roomAFullB (Msg.raw "z") "" clientFullB (by decide)⟩

/-- Claim C7: the join loop admits a client only on a frame that parses
with type join and non-empty name and room fields, and a connection whose
frames contain no such valid join is closed without ever being
admitted. -/
theorem join_requires_valid (fs : List Frame) :
    (∀ n rm, joinOutcome fs = JoinResult.joined n rm →
      n ≠ "" ∧ rm ≠ "" ∧ Frame.parsed "join" n rm ∈ fs) ∧
    ((∀ t n rm, Frame.parsed t n rm ∈ fs → t = "join" → n = "" ∨ rm = "") →
      joinOutcome fs = JoinResult.closedUnjoined) := by
  induction fs with
  | nil =>
    refine ⟨?_, ?_⟩
    · intro n rm h
      exact absurd h (by simp [joinOutcome])
    · intro _
      rfl
  | cons f rest ih =>
    cases f with
    | malformed =>
      refine ⟨?_, ?_⟩
      · intro n rm h
        have h2 := ih.1 n rm (by simpa [joinOutcome] using h)
        exact ⟨h2.1, h2.2.1, List.mem_cons_of_mem _ h2.2.2⟩
      · intro hall
        simp only [joinOutcome]
        exact ih.2 (fun t n rm hm ht => hall t n rm (List.mem_cons_of_mem _ hm) ht)
    | parsed t0 n0 rm0 =>
      by_cases ht : t0 = "join"
      · by_cases hn : n0 = ""
        · refine ⟨?_, ?_⟩
          · intro n rm h
            have h2 := ih.1 n rm (by simpa [joinOutcome, ht, hn] using h)
            exact ⟨h2.1, h2.2.1, List.mem_cons_of_mem _ h2.2.2⟩
          · intro hall
            have hstep : joinOutcome (Frame.parsed t0 n0 rm0 :: rest) = joinOutcome rest := by
              simp [joinOutcome, ht, hn]
            rw [hstep]
            exact ih.2 (fun t n rm hm htj => hall t n rm (List.mem_cons_of_mem _ hm) htj)
        · by_cases hrm : rm0 = ""
          · refine ⟨?_, ?_⟩
            · intro n rm h
              have h2 := ih.1 n rm (by simpa [joinOutcome, ht, hn, hrm] using h)
              exact ⟨h2.1, h2.2.1, List.mem_cons_of_mem _ h2.2.2⟩
            · intro hall
              have hstep : joinOutcome (Frame.parsed t0 n0 rm0 :: rest) = joinOutcome rest := by
                simp [joinOutcome, ht, hn, hrm]
              rw [hstep]
              exact ih.2 (fun t n rm hm htj => hall t n rm (List.mem_cons_of_mem _ hm) htj)
          · refine ⟨?_, ?_⟩
            · intro n rm h
              have hstep : joinOutcome (Frame.parsed t0 n0 rm0 :: rest)
                  = JoinResult.joined n0 rm0 := by
                simp [joinOutcome, ht, hn, hrm]
              rw [hstep] at h
              obtain ⟨rfl, rfl⟩ : n0 = n ∧ rm0 = rm := by
                cases h
                exact ⟨rfl, rfl⟩
              exact ⟨hn, hrm, by rw [ht] at *; exact List.mem_cons_self _ _⟩
            · intro hall
              have := hall t0 n0 rm0 (List.mem_cons_self _ _) ht
              rcases this with h0 | h0
              · exact absurd h0 hn
              · exact absurd h0 hrm
      · refine ⟨?_, ?_⟩
        · intro n rm h
          have h2 := ih.1 n rm (by simpa [joinOutcome, ht] using h)
          exact ⟨h2.1, h2.2.1, List.mem_cons_of_mem _ h2.2.2⟩
        · intro hall
          have hstep : joinOutcome (Frame.parsed t0 n0 rm0 :: rest) = joinOutcome rest := by
            simp [joinOutcome, ht]
          rw [hstep]
          exact ih.2 (fun t n rm hm htj => hall t n rm (List.mem_cons_of_mem _ hm) htj)

/-- Claim C7 witness: on demoFrames the loop skips the malformed frame
and the empty-name join and admits on the valid join of A into lobby. -/
theorem join_requires_valid_witness :
    joinOutcome demoFrames = JoinResult.joined "A" "lobby" ∧
    ("A" ≠ "" ∧ "lobby" ≠ "" ∧ Frame.parsed "join" "A" "lobby" ∈ demoFrames) :=
  ⟨by decide, (join_requires_valid demoFrames).1 "A" "lobby" (by decide)⟩

/-- Claim C6 is refuted by the code: RemoveClient in part_000 acquires
the room mutex and then calls Broadcast, which acquires the same
non-reentrant mutex while it is still held. Running its lock trace on a
concrete room blocks the task forever with the lock still held, so an
acquired lock is never released. -/
theorem removeClient_self_deadlock :
    (runActs execAB (removeClientActs "B")).blocked = true ∧
    (runActs execAB (removeClientActs "B")).lockHeld = true := by
  decide

/-- Claim C5 is refuted in execution: RemoveClient deletes the entry (the
departed name is absent afterwards) but then deadlocks re-acquiring the
room mutex inside Broadcast before any enqueue, so the leave message
reaches no remaining member: client A still has an empty queue. -/
theorem removeClient_leave_undelivered :
    (runActs execAB (removeClientActs "B")).room.lookup "B" = none ∧
    (runActs execAB (removeClientActs "B")).room.lookup "A" = some clientA ∧
    clientA.queue.msgs = [] ∧
    (runActs execAB (removeClientActs "B")).blocked = true := by
  decide

/-- Claim C8 is refuted in execution: a leave message does terminate the
read loop (the dispatch continue flag is false) and RemoveClient is
invoked first in the cleanup, but RemoveClient deadlocks, so the
connection close and the queue close that follow it in the deferred
cleanup are never reached and the drain loop cannot exit. -/
theorem leave_cleanup_never_closes :
    (dispatch roomAB "B" "leave" "" (Msg.raw "bye")).snd = false ∧
    (runActs execAB (cleanupActs "B")).connClosed = false ∧
    (runActs execAB (cleanupActs "B")).queueClosed = false ∧
    (runActs execAB (cleanupActs "B")).blocked = true := by
  decide

/-- A name none of the members carries is never found. -/
theorem find_none_of_ne (l : List Client) (n : String) (h : ∀ c ∈ l, c.name ≠ n) :
    l.find? (fun x => x.name == n) = none := by
  rw [List.find?_eq_none]
  intro x hx
  simpa using h x hx

/-- Erasing a name no member carries leaves the member list unchanged. -/
theorem filter_ne_of_ne (l : List Client) (n : String) (h : ∀ c ∈ l, c.name ≠ n) :
    l.filter (fun c => c.name != n) = l := by
  rw [List.filter_eq_self]
  intro x hx
  simpa using h x hx

/-- Updating the entry of a name no member carries changes nothing. -/
theorem map_update_of_ne (l : List Client) (n : String) (g : Client → Client)
    (h : ∀ c ∈ l, c.name ≠ n) :
    l.map (fun c => if c.name == n then g c else c) = l := by
  induction l with
  | nil => rfl
  | cons a t ih =>
    have ha : (a.name == n) = false :=
      beq_eq_false_iff_ne.mpr (h a (List.mem_cons_self a t))
    simp only [List.map_cons, ha]
    simp only [Bool.false_eq_true, if_false]
    rw [ih (fun c hc => h c (List.mem_cons_of_mem _ hc))]

/-- The broadcast loop over members who all differ from the excluded name
and all have queue room appends the message to every queue. -/
theorem map_broadcast_of_ne_full (l : List Client) (n : String) (m : Msg)
    (h : ∀ c ∈ l, c.name ≠ n) (hfull : ∀ c ∈ l, c.queue.msgs.length < c.queue.cap) :
    l.map (fun c => if c.name != n then c.trySendMsg m else c)
      = l.map (fun c => ⟨c.name, ⟨c.queue.msgs ++ [m], c.queue.cap⟩, c.sockClosed⟩) := by
  apply List.map_congr_left
  intro a ha
  have h1 : (a.name != n) = true := by simpa using h a ha
  have h2 : a.queue.msgs.length < a.queue.cap := hfull a ha
  simp [h1, Client.trySendMsg, Queue.trySend, h2]

/-- Claim C1: a successful join handshake admitting a fresh name first
enqueues onto the own outbound queue of the new client exactly one
user-list message carrying exactly the names of the other current
members, and then the new-user message carrying the joiner name is
appended to the queue of every other member (each queue having room),
while the joiner is excluded from that broadcast: the theorem
characterizes the entire room state after the handshake. -/
theorem join_userlist_then_newuser (r : Room) (n : String)
    (hn : ∀ c ∈ r.clients, c.name ≠ n)
    (hfull : ∀ c ∈ r.clients, c.queue.msgs.length < c.queue.cap) :
    handleJoin r n = some ⟨r.name,
      r.clients.map
          (fun c => ⟨c.name, ⟨c.queue.msgs ++ [Msg.newUser n], c.queue.cap⟩, c.sockClosed⟩)
        ++ [⟨n, ⟨[Msg.userList (r.clients.map (fun c => c.name))], clientSendCap⟩, false⟩]⟩ := by
  have hfind : r.clients.find? (fun x => x.name == n) = none := find_none_of_ne r.clients n hn
  have hins : (r.insertClient (mkClient n)).fst = ⟨r.name, r.clients ++ [mkClient n]⟩ := by
    simp [Room.insertClient, mkClient, hfind]
  have hothers : Room.otherNames ⟨r.name, r.clients ++ [mkClient n]⟩ n
      = r.clients.map (fun c => c.name) := by
    simp only [Room.otherNames, List.filter_append, filter_ne_of_ne r.clients n hn]
    simp [mkClient]
  have hsend : (mkClient n).queue.send (Msg.userList (r.clients.map (fun c => c.name)))
      = some ⟨[Msg.userList (r.clients.map (fun c => c.name))], clientSendCap⟩ := by
    simp [mkClient, Queue.send, clientSendCap]
  unfold handleJoin
  rw [hins, hothers, hsend]
  simp only [Room.updateClient, Room.broadcast, List.map_append]
  rw [map_update_of_ne r.clients n _ hn,
    map_broadcast_of_ne_full r.clients n (Msg.newUser n) hn hfull]
  simp [mkClient, clientSendCap]

/-- Claim C1 witness: C joining roomAB gets the user-list naming A and B
on its own fresh queue while A and B each get the new-user message. -/
theorem join_userlist_then_newuser_witness :
    (∀ c ∈ roomAB.clients, c.name ≠ "C") ∧
    (∀ c ∈ roomAB.clients, c.queue.msgs.length < c.queue.cap) ∧
    handleJoin roomAB "C" = some ⟨roomAB.name,
      roomAB.clients.map
          (fun c => ⟨c.name, ⟨c.queue.msgs ++ [Msg.newUser "C"], c.queue.cap⟩, c.sockClosed⟩)
        ++ [⟨"C", ⟨[Msg.userList (roomAB.clients.map (fun c => c.name))],
              clientSendCap⟩, false⟩]⟩ :=
  ⟨by decide, by decide, join_userlist_then_newuser roomAB "C" (by decide) (by decide)⟩

/-- Claim C4: a parsed offer, answer or candidate message carrying a
non-empty target is routed to that one member only: when the target is a
current member, every entry maps through a transformer that touches no
member other than the target and appends the original message verbatim to
the target queue when it has room; when the target names no member the
room is completely unchanged and the message reaches no one. The read
loop continues either way. -/
theorem forward_targeted (r : Room) (sender typ target : String) (m : Msg)
    (htyp : typ = "offer" ∨ typ = "answer" ∨ typ = "candidate")
    (htgt : target ≠ "") :
    ((r.lookup target).isSome →
      (dispatch r sender typ target m).fst.clients
        = r.clients.map (fun c => if c.name == target then c.trySendMsg m else c)) ∧
    (r.lookup target = none → (dispatch r sender typ target m).fst = r) ∧
    (dispatch r sender typ target m).snd = true := by
  have hb : (typ == "offer" || typ == "answer" || typ == "candidate") = true := by
    rcases htyp with h | h | h <;> simp [h]
  have ht0 : (target == "") = false := beq_eq_false_iff_ne.mpr htgt
  refine ⟨?_, ?_, ?_⟩
  · intro hlk
    rw [Option.isSome_iff_exists] at hlk
    obtain ⟨tc, htc⟩ := hlk
    simp [dispatch, hb, ht0, htc, Room.updateClient]
  · intro hlk
    simp [dispatch, hb, ht0, hlk]
  · cases hlk : r.lookup target with
    | some tc => simp [dispatch, hb, ht0, hlk]
    | none => simp [dispatch, hb, ht0, hlk]

/-- Claim C4 witness: an offer from A targeted at B in roomAB maps only
the entry of B through the enqueue transformer, and the instantiated
absent-target and continue conclusions hold as well. -/
theorem forward_targeted_witness :
    ("offer" = "offer" ∨ "offer" = "answer" ∨ "offer" = "candidate") ∧
    ("B" : String) ≠ "" ∧
    (((roomAB.lookup "B").isSome →
      (dispatch roomAB "A" "offer" "B" (Msg.raw "sdp")).fst.clients
        = roomAB.clients.map
            (fun c => if c.name == "B" then c.trySendMsg (Msg.raw "sdp") else c)) ∧
    (roomAB.lookup "B" = none →
      (dispatch roomAB "A" "offer" "B" (Msg.raw "sdp")).fst = roomAB) ∧
    (dispatch roomAB "A" "offer" "B" (Msg.raw "sdp")).snd = true) :=
  ⟨Or.inl rfl, by decide,
    forward_targeted roomAB "A" "offer" "B" (Msg.raw "sdp") (Or.inl rfl) (by decide)⟩

/-- Finding a name commutes with updating that name through a transformer
that preserves every member name. -/
theorem find_map_name_preserving (l : List Client) (n : String) (g : Client → Client)
    (hg : ∀ x, (g x).name = x.name) :
    (l.map (fun c => if c.name == n then g c else c)).find? (fun c => c.name == n)
      = (l.find? (fun c => c.name == n)).map (fun c => if c.name == n then g c else c) := by
  induction l with
  | nil => rfl
  | cons a t ih =>
    rw [List.map_cons]
    simp only [List.find?]
    by_cases ha : a.name = n
    · have hga : ((if a.name == n then g a else a).name == n) = true := by
        simp [ha, hg]
      rw [hga, (by simp [ha] : (a.name == n) = true)]
      simp [ha]
    · have hga : ((if a.name == n then g a else a).name == n) = false := by
        simp [ha]
      rw [hga, (by simp [ha] : (a.name == n) = false)]
      exact ih

/-- Claim C10: a targeted offer, answer or candidate whose target equals
the sender own name is enqueued onto the sender own outbound queue:
targeted forwarding does not exclude the sender the way broadcast does,
so a member whose queue has room routes the message to itself. -/
theorem forward_to_self (r : Room) (s typ : String) (m : Msg) (c : Client)
    (htyp : typ = "offer" ∨ typ = "answer" ∨ typ = "candidate")
    (hs : s ≠ "")
    (hc : r.lookup s = some c)
    (hroom : c.queue.msgs.length < c.queue.cap) :
    (dispatch r s typ s m).fst.lookup s = some (c.trySendMsg m) ∧
    (c.trySendMsg m).queue.msgs = c.queue.msgs ++ [m] := by
  have hb : (typ == "offer" || typ == "answer" || typ == "candidate") = true := by
    rcases htyp with h | h | h <;> simp [h]
  have hs0 : (s == "") = false := beq_eq_false_iff_ne.mpr hs
  have hc2 : r.clients.find? (fun x => x.name == s) = some c := hc
  have hcname : c.name = s := by
    have h3 := List.find?_some hc2
    simpa using h3
  refine ⟨?_, ?_⟩
  · have hd : (dispatch r s typ s m).fst = r.updateClient s (fun x => x.trySendMsg m) := by
      simp [dispatch, hb, hs0, hc]
    rw [hd]
    show (r.clients.map (fun x => if x.name == s then x.trySendMsg m else x)).find?
        (fun x => x.name == s) = some (c.trySendMsg m)
    rw [find_map_name_preserving r.clients s (fun x => x.trySendMsg m) (fun x => rfl), hc2]
    simp [hcname]
  · simp [Client.trySendMsg, Queue.trySend, hroom]

/-- Claim C10 witness: an offer from A targeted at A itself lands on the
own queue of A in roomAB. -/
theorem forward_to_self_witness :
    ("offer" = "offer" ∨ "offer" = "answer" ∨ "offer" = "candidate") ∧
    ("A" : String) ≠ "" ∧
    roomAB.lookup "A" = some clientA ∧
    clientA.queue.msgs.length < clientA.queue.cap ∧
    ((dispatch roomAB "A" "offer" "A" (Msg.raw "sdp")).fst.lookup "A"
        = some (clientA.trySendMsg (Msg.raw "sdp")) ∧
      (clientA.trySendMsg (Msg.raw "sdp")).queue.msgs
        = clientA.queue.msgs ++ [Msg.raw "sdp"]) :=
  ⟨Or.inl rfl, by decide, by decide, by decide,
    forward_to_self roomAB "A" "offer" (Msg.raw "sdp") clientA (Or.inl rfl)
      (by decide) (by decide) (by decide)⟩

end SigRelay
